import Mathlib

/-! Formal model of the real-time room broadcast fabric implemented in
`server/scripts/runtime/websocket_server.py`: the per-session bounded send
queue with coalescing and drop policy (`MusicRoomProtocol`), and the
connection registry, room registry and per-room batching of
`MusicRoomFactory`. Machine times (`time.monotonic()`) are modelled as
rationals; the encoded byte payload of a message is identified with the
message itself (`json.dumps` is injective on the dictionaries used here). -/

namespace WsModel

/-- A JSON protocol message, reduced to its discriminator `type` and the one
payload field the protocol logic reads (`user_id`, `room_id`, `message`, or
an opaque body). -/
structure Msg where
  mtype : String
  body : String
deriving DecidableEq

/-- Python `dict` assignment `d[k] = v` on an association list: replace in
place, or append a fresh key (insertion order preserved, as in CPython). -/
def dictInsert {κ α : Type} [DecidableEq κ] : List (κ × α) → κ → α → List (κ × α)
  | [], k, v => [(k, v)]
  | (k', v') :: t, k, v => if k' = k then (k, v) :: t else (k', v') :: dictInsert t k v

/-- Python `d.get(k)`; `k in d` is `(lookupD d k).isSome`. -/
def lookupD {κ α : Type} [DecidableEq κ] : List (κ × α) → κ → Option α
  | [], _ => none
  | (k', v') :: t, k => if k = k' then some v' else lookupD t k

/-- Python `del d[k]` (removes the first entry holding the key). -/
def dictErase {κ α : Type} [DecidableEq κ] : List (κ × α) → κ → List (κ × α)
  | [], _ => []
  | (k', v') :: t, k => if k' = k then t else (k', v') :: dictErase t k

/-- In-place mutation of the value stored at a key, as in
`self.rooms[room_id].add(...)` or `self.message_queues[room_id].append(...)`. -/
def dictUpdate {κ α : Type} [DecidableEq κ] (f : α → α) : List (κ × α) → κ → List (κ × α)
  | [], _ => []
  | (k', v') :: t, k => if k' = k then (k', f v') :: t else (k', v') :: dictUpdate f t k

/-- ASCII lowering, Python `str.lower()` on the policy strings used here. -/
def strLower (s : String) : String :=
  String.mk (s.data.map Char.toLower)

/-- `(self._ws_drop_policy or 'oldest').lower() == 'newest'` (the empty
string stands for a falsy policy value). -/
def policy_is_newest (p : String) : Bool :=
  strLower (if p = "" then "oldest" else p) == "newest"

/-- Per-connection backpressure settings read from the factory in
`_init_send_queue` (lines 262-280). -/
structure Cfg where
  sendQueueMax : Nat
  coalesceWindowMs : Nat
  dropPolicy : String
  slowThreshold : Nat
  coalesceTypes : List String
deriving DecidableEq

/-- Factory defaults: `WS_SEND_QUEUE_MAX=100`, `WS_COALESCE_WINDOW_MS=50`,
`WS_DROP_POLICY='oldest'`, `WS_SLOW_CLIENT_DISCONNECT_AFTER_DROPS=0`,
`coalesce_types = {"page_updated", "song_updated"}`. -/
def defaultCfg : Cfg :=
  ⟨100, 50, "oldest", 0, ["page_updated", "song_updated"]⟩

/-- `window_s = self._ws_coalesce_window_ms / 1000.0`. -/
def windowS (cfg : Cfg) : Rat :=
  (cfg.coalesceWindowMs : Rat) / 1000

/-- Mutable queueing state of one `MusicRoomProtocol` connection:
`_send_queue` (front of the list is the head), `_coalesce_until`,
`_coalesce_latest`, `_dropped_count`, `_peak_queue`, and the close code
passed to `sendClose` by `_maybe_disconnect_for_drops` if it fired. -/
structure SQ where
  queue : List Msg
  coalesceUntil : Rat
  coalesceLatest : List (String × Msg)
  dropped : Nat
  peak : Nat
  closeCode : Option Nat
deriving DecidableEq

/-- State set up by `_init_send_queue`. -/
def initSQ : SQ :=
  ⟨[], 0, [], 0, 0, none⟩

/-- `asyncio.Queue.full()`: false whenever `maxsize <= 0` (such a queue is
unbounded), else `qsize() >= maxsize`. -/
def queue_full (cfg : Cfg) (q : List Msg) : Bool :=
  decide (0 < cfg.sendQueueMax) && decide (cfg.sendQueueMax ≤ q.length)

/-- `_maybe_disconnect_for_drops` (lines 375-380): close with 4002 when the
threshold is truthy (nonzero) and `_dropped_count` has reached it. -/
def maybe_disconnect_for_drops (cfg : Cfg) (s : SQ) : SQ :=
  if cfg.slowThreshold ≠ 0 ∧ cfg.slowThreshold ≤ s.dropped then
    { s with closeCode := some 4002 }
  else s

/-- The `try: put_nowait ... except QueueFull` block shared by
`enqueue_message` (lines 330-338) and `_flush_coalesced_after`
(lines 363-369): on overflow count a drop and report rejection, otherwise
append and update `_peak_queue`. -/
def put_nowait (cfg : Cfg) (s : SQ) (m : Msg) : SQ × Bool :=
  if queue_full cfg s.queue then
    (maybe_disconnect_for_drops cfg { s with dropped := s.dropped + 1 }, false)
  else
    ({ s with queue := s.queue ++ [m], peak := max s.peak (s.queue.length + 1) }, true)

/-- `MusicRoomProtocol.enqueue_message` (lines 293-341). Coalescable types
inside an open window are buffered per type; otherwise the drop policy is
applied when the queue is full and the payload is enqueued. -/
def enqueue_message (cfg : Cfg) (s : SQ) (now : Rat) (m : Msg) : SQ × Bool :=
  if cfg.coalesceTypes.contains m.mtype ∧ 0 < cfg.coalesceWindowMs then
    let s1 := if s.coalesceUntil ≤ now then { s with coalesceUntil := now + windowS cfg } else s
    ({ s1 with coalesceLatest := dictInsert s1.coalesceLatest m.mtype m }, true)
  else if queue_full cfg s.queue then
    if policy_is_newest cfg.dropPolicy then
      (maybe_disconnect_for_drops cfg { s with dropped := s.dropped + 1 }, false)
    else
      match s.queue with
      | [] => put_nowait cfg s m
      | _ :: t =>
        put_nowait cfg (maybe_disconnect_for_drops cfg { s with queue := t, dropped := s.dropped + 1 }) m
  else
    put_nowait cfg s m

/-- One iteration of the loop body of `_flush_coalesced_after`
(lines 348-369); also reports the frame it enqueued, if it did.
Note the oldest-policy branch of the flush drops the head silently
(lines 353-356 do not touch `_dropped_count`). -/
def flush_one (cfg : Cfg) (s : SQ) (m : Msg) : SQ × Option Msg :=
  if queue_full cfg s.queue then
    if policy_is_newest cfg.dropPolicy then
      (maybe_disconnect_for_drops cfg { s with dropped := s.dropped + 1 }, none)
    else
      let s1 := match s.queue with
        | [] => s
        | _ :: t => { s with queue := t }
      let r := put_nowait cfg s1 m
      (r.1, if r.2 then some m else none)
  else
    let r := put_nowait cfg s m
    (r.1, if r.2 then some m else none)

/-- The `for _type, msg in pending.items()` loop of
`_flush_coalesced_after`, also collecting the frames actually enqueued. -/
def flush_list (cfg : Cfg) : SQ → List (String × Msg) → SQ × List Msg
  | s, [] => (s, [])
  | s, (_, m) :: rest =>
    let r := flush_one cfg s m
    let r2 := flush_list cfg r.1 rest
    (r2.1, r.2.toList ++ r2.2)

/-- `_flush_coalesced_after` after its timer fires (lines 345-369):
`pending = self._coalesce_latest; self._coalesce_latest = {}` and then the
per-entry enqueue loop. -/
def flush_coalesced (cfg : Cfg) (s : SQ) : SQ × List Msg :=
  flush_list cfg { s with coalesceLatest := [] } s.coalesceLatest

/-- An operation that touches a session's outbound queue: a producer-side
`enqueue_message` call at some instant, or a coalesce-flush firing. -/
inductive QOp where
  | recv (now : Rat) (m : Msg)
  | flushNow
deriving DecidableEq

/-- Effect of one queue operation on the session's queueing state. -/
def applyQOp (cfg : Cfg) (s : SQ) : QOp → SQ
  | .recv now m => (enqueue_message cfg s now m).1
  | .flushNow => (flush_coalesced cfg s).1

/-- Fold `enqueue_message` over a list of timed messages. -/
def processAll (cfg : Cfg) (s : SQ) (msgs : List (Rat × Msg)) : SQ :=
  msgs.foldl (fun s p => (enqueue_message cfg s p.1 p.2).1) s

/-- Option fallback used to describe dictionary folds. -/
def optOr {α : Type} : Option α → Option α → Option α
  | some v, _ => some v
  | none, b => b

/-- The last message of a given type in a timed list, if any. -/
def lastOfType : List (Rat × Msg) → String → Option Msg
  | [], _ => none
  | p :: rest, ty => optOr (lastOfType rest ty) (if p.2.mtype = ty then some p.2 else none)

/-- The server-side view of one connection: `self.user_id`, `self.room_id`,
its queueing state, and the frames written directly with `sendMessage`
(in write order). The empty `userId` stands for Python `None`. -/
structure Conn where
  userId : String
  roomId : Option String
  sq : SQ
  wire : List Msg
deriving DecidableEq

/-- `MusicRoomFactory` registries: `self.connections : user_id -> protocol`
(protocols named by session ids), `self.rooms : room_id -> set of user_ids`
(a set modelled as a duplicate-free list), and
`self.message_queues : room_id -> list of pending batched messages`. -/
structure Factory where
  connections : List (String × Nat)
  rooms : List (String × List String)
  messageQueues : List (String × List Msg)
deriving DecidableEq

/-- The whole process state: factory registries, the store of live protocol
objects keyed by session id, the backpressure configuration, and the
current `time.monotonic()` instant. -/
structure World where
  factory : Factory
  conns : List (Nat × Conn)
  cfg : Cfg
  now : Rat
deriving DecidableEq

/-- `MusicRoomFactory.register_connection` (lines 445-449): when the
protocol has a truthy `user_id`, map it to the protocol, overwriting any
previous entry. Nothing else happens; in particular no session is closed. -/
def register_connection (w : World) (sid : Nat) : World :=
  match lookupD w.conns sid with
  | none => w
  | some c =>
    if c.userId = "" then w
    else { w with factory := { w.factory with
            connections := dictInsert w.factory.connections c.userId sid } }

/-- `MusicRoomFactory.unregister_connection` (lines 451-455): when the
protocol's `user_id` is truthy and present in the map, delete that key —
regardless of which protocol the map currently holds for it. -/
def unregister_connection (w : World) (sid : Nat) : World :=
  match lookupD w.conns sid with
  | none => w
  | some c =>
    if c.userId ≠ "" ∧ (lookupD w.factory.connections c.userId).isSome then
      { w with factory := { w.factory with
          connections := dictErase w.factory.connections c.userId } }
    else w

/-- Python `set.add` on the member list (no duplicate is introduced). -/
def addMember (mem : List String) (uid : String) : List String :=
  if mem.contains uid then mem else mem ++ [uid]

/-- `MusicRoomFactory.join_room` (lines 457-464): create the room entry if
absent, then `self.rooms[room_id].add(protocol.user_id)`. -/
def factory_join_room (f : Factory) (uid roomId : String) : Factory :=
  let rooms1 := if (lookupD f.rooms roomId).isSome then f.rooms else f.rooms ++ [(roomId, [])]
  { f with rooms := dictUpdate (fun mem => addMember mem uid) rooms1 roomId }

/-- `MusicRoomFactory.leave_room` (lines 466-478): remove the user from the
room's member set when present, deleting the room entry if it became empty. -/
def factory_leave_room (f : Factory) (uid roomId : String) : Factory :=
  match lookupD f.rooms roomId with
  | none => f
  | some mem =>
    if mem.contains uid then
      let mem' := mem.erase uid
      if mem'.isEmpty then { f with rooms := dictErase f.rooms roomId }
      else { f with rooms := dictUpdate (fun _ => mem') f.rooms roomId }
    else f

/-- Member set of a room as the broadcast code reads it. -/
def membersOf (f : Factory) (roomId : String) : List String :=
  (lookupD f.rooms roomId).getD []

/-- `self.connections[user_id].enqueue_message(message)`: apply the
enqueue to the protocol stored under the session id. -/
def enqueueToSid (w : World) (sid : Nat) (m : Msg) : World :=
  { w with conns := dictUpdate (fun c => { c with sq := (enqueue_message w.cfg c.sq w.now m).1 }) w.conns sid }

/-- The guard `(not exclude or user_id != exclude.user_id)` of
`_send_to_room_users` — exclusion is by `user_id`, not object identity. -/
def excludeOk (exclude : Option String) (uid : String) : Bool :=
  match exclude with
  | none => true
  | some eu => uid != eu

/-- One iteration of the member loop of `_send_to_room_users`
(lines 556-563). -/
def sendStep (m : Msg) (exclude : Option String) (w : World) (uid : String) : World :=
  match lookupD w.factory.connections uid with
  | none => w
  | some sid => if excludeOk exclude uid then enqueueToSid w sid m else w

/-- `MusicRoomFactory._send_to_room_users` (lines 549-566): warn and return
when the room is unknown, otherwise attempt `enqueue_message` on every
member other than the excluded user. -/
def send_to_room_users (w : World) (roomId : String) (m : Msg) (exclude : Option String) : World :=
  match lookupD w.factory.rooms roomId with
  | none => w
  | some members => members.foldl (sendStep m exclude) w

/-- The hard-coded immediate-send list of `broadcast_to_room` (line 487). -/
def non_batchable_types : List String :=
  ["critical_update", "song_updated", "page_updated"]

/-- Appending to the room's pending-batch list (lines 494-500 of
`broadcast_to_room`), initializing the list if needed. -/
def queue_message (f : Factory) (roomId : String) (m : Msg) : Factory :=
  let mq := if (lookupD f.messageQueues roomId).isSome then f.messageQueues
            else f.messageQueues ++ [(roomId, [])]
  { f with messageQueues := dictUpdate (fun l => l ++ [m]) mq roomId }

/-- `MusicRoomFactory.broadcast_to_room` (lines 480-500): drop with a
warning when the room is unregistered; send immediately when the type is in
`non_batchable_types`; otherwise append to the pending-batch list (note the
`exclude` argument is not recorded on the batch path). -/
def broadcast_to_room (w : World) (roomId : String) (m : Msg) (exclude : Option String) : World :=
  if (lookupD w.factory.rooms roomId).isNone then w
  else if non_batchable_types.contains m.mtype then
    send_to_room_users w roomId m exclude
  else
    { w with factory := queue_message w.factory roomId m }

/-- Primitive effects a protocol handler performs, in the order the running
code performs them. -/
inductive HOp where
  | opSetRoom (r : Option String)
  | opJoin (roomId : String)
  | opLeave (roomId : String)
  | opSendDirect (m : Msg)
  | opBroadcast (roomId : String) (m : Msg) (exclude : Option String)
deriving DecidableEq

/-- Interpretation of one handler effect performed by session `sid`. -/
def applyHOp (w : World) (sid : Nat) : HOp → World
  | .opSetRoom r => { w with conns := dictUpdate (fun c => { c with roomId := r }) w.conns sid }
  | .opJoin roomId =>
    match lookupD w.conns sid with
    | none => w
    | some c => { w with factory := factory_join_room w.factory c.userId roomId }
  | .opLeave roomId =>
    match lookupD w.conns sid with
    | none => w
    | some c => { w with factory := factory_leave_room w.factory c.userId roomId }
  | .opSendDirect m => { w with conns := dictUpdate (fun c => { c with wire := c.wire ++ [m] }) w.conns sid }
  | .opBroadcast roomId m exclude => broadcast_to_room w roomId m exclude

/-- Run a handler's effects in order. -/
def runTrace (w : World) (sid : Nat) (ops : List HOp) : World :=
  ops.foldl (fun w op => applyHOp w sid op) w

/-- `MusicRoomProtocol.handle_join_room` (lines 140-181) as the ordered
effects it performs, given the session's current `self.room_id` and the
`room_id` field of the request (`none` when absent). A falsy `room_id`
only draws an error reply. Otherwise the code first sets `self.room_id`
and calls `factory.join_room` on the new room, and only afterwards calls
`factory.leave_room` on the old room when it differs; finally it replies
`join_room_success` directly on the socket. (The database lookup of the
room is advisory: its outcome is ignored.) -/
def handle_join_room_trace (selfRoom : Option String) (roomIdArg : Option String) : List HOp :=
  match roomIdArg with
  | none => [.opSendDirect ⟨"error", "No room_id provided"⟩]
  | some rid =>
    if rid = "" then [.opSendDirect ⟨"error", "No room_id provided"⟩]
    else
      [.opSetRoom (some rid), .opJoin rid] ++
      (match selfRoom with
       | some old => if old ≠ rid then [.opLeave old] else []
       | none => []) ++
      [.opSendDirect ⟨"join_room_success", rid⟩]

/-- `MusicRoomProtocol.handle_leave_room` (lines 183-211) as the ordered
effects it performs. The `participant_left` broadcast is wrapped in
`asyncio.create_task` (line 193), which only schedules the coroutine: the
handler continues synchronously through `factory.leave_room`,
`self.room_id = None` and the direct `room_left` reply, and the scheduled
broadcast body runs only after the handler returns control to the event
loop — so its effect comes last. -/
def handle_leave_room_trace (selfRoom : Option String) (uid : String) : List HOp :=
  match selfRoom with
  | none => [.opSendDirect ⟨"error", "Not in any room"⟩]
  | some rid =>
    [.opLeave rid, .opSetRoom none, .opSendDirect ⟨"room_left", rid⟩,
     .opBroadcast rid ⟨"participant_left", uid⟩ (some uid)]

/-- Outcome of `authenticate_websocket` as `onOpen` consumes it: either the
`uid` field of the result, or the `error` string of a failed result. -/
inductive VerifyResult where
  | ok (uid : String)
  | err (reason : String)
deriving DecidableEq

/-- Effects of the handshake path. -/
inductive OEff where
  | close (code : Nat) (reason : String)
  | setUser (uid : String)
  | initQueue
  | register (uid : String)
  | send (m : Msg)
deriving DecidableEq

/-- Whether a handshake effect is a server message write. -/
def OEff.isSend : OEff → Bool
  | .send _ => true
  | _ => false

/-- `self.auth_token` is falsy: it was never extracted (`None`) or is the
empty string. -/
def tokenMissing : Option String → Bool
  | none => true
  | some t => t == ""

/-- `MusicRoomProtocol.onOpen` (lines 57-103) as the ordered effects it
performs: reject a missing token with close code 4000, reject a failed
verification with close code 4001 and the verifier's error string, and on
success record `user_id`, initialize the send queue, register with the
factory, and send the single `connection_success` message. -/
def onOpen_effects (authToken : Option String) (verify : String → VerifyResult) : List OEff :=
  match authToken with
  | none => [.close 4000 "Authentication required"]
  | some tok =>
    if tok = "" then [.close 4000 "Authentication required"]
    else
      match verify tok with
      | .err reason => [.close 4001 reason]
      | .ok uid => [.setUser uid, .initQueue, .register uid, .send ⟨"connection_success", uid⟩]

/-- A two-member room: users `u1` (session 1) and `u2` (session 2), both
registered and members of room `R`, with fresh send queues. -/
def wTwo : World :=
  ⟨⟨[("u1", 1), ("u2", 2)], [("R", ["u1", "u2"])], []⟩,
   [(1, ⟨"u1", some "R", initSQ, []⟩), (2, ⟨"u2", some "R", initSQ, []⟩)],
   defaultCfg, 0⟩

/-- The `participant_left` notification for `u1`. -/
def mPLu1 : Msg := ⟨"participant_left", "u1"⟩

/-- A four-entry configuration with a queue bound of 2 and `oldest` drop
policy, as in scenario S5. -/
def cfgS5 : Cfg := ⟨2, 50, "oldest", 0, ["page_updated", "song_updated"]⟩

/-- Three non-coalescable, non-critical payloads. -/
def mS5a : Msg := ⟨"chat_message", "1"⟩

/-- Second S5 payload. -/
def mS5b : Msg := ⟨"chat_message", "2"⟩

/-- Third S5 payload. -/
def mS5c : Msg := ⟨"chat_message", "3"⟩

/-- Queue state after enqueueing the three S5 payloads with a stalled
writer (nothing is dequeued in between). -/
def sS5 : SQ :=
  (enqueue_message cfgS5 ((enqueue_message cfgS5 ((enqueue_message cfgS5 initSQ 0 mS5a).1) 0 mS5b).1) 0 mS5c).1

/-- Configuration with `slow_client_disconnect_after_drops = 1` and a queue
bound of 1. -/
def cfgT1 : Cfg := ⟨1, 50, "oldest", 1, ["page_updated", "song_updated"]⟩

/-- A queued payload occupying the single slot of a bound-1 queue. -/
def mQ0 : Msg := ⟨"chat_message", "q"⟩

/-- The payload whose enqueue forces a drop. -/
def mDrop : Msg := ⟨"chat_message", "d"⟩

/-- A session whose bounded queue is full and which has dropped nothing yet. -/
def sFullT1 : SQ := ⟨[mQ0], 0, [], 0, 1, none⟩

/-- A session that has already dropped one message. -/
def sDrop1 : SQ := ⟨[], 0, [], 1, 0, none⟩

/-- A verifier that rejects every token the way `authenticate_websocket`
reports an invalid one. -/
def verifyFail : String → VerifyResult := fun _ => .err "Invalid authentication token"

/-- A verifier that accepts every token as user `user-1`. -/
def verifyOk : String → VerifyResult := fun _ => .ok "user-1"

/-- Page update to page 2. -/
def mP2 : Msg := ⟨"page_updated", "2"⟩

/-- Page update to page 3. -/
def mP3 : Msg := ⟨"page_updated", "3"⟩

/-- Page update to page 4. -/
def mP4 : Msg := ⟨"page_updated", "4"⟩

/-- A song update. -/
def mSongA : Msg := ⟨"song_updated", "a"⟩

/-- Three coalescable messages arriving 10, 20 and 30 ms into a 50 ms
window that opened at instant 0. -/
def c4rest : List (Rat × Msg) := [(1/100, mP3), (1/50, mSongA), (3/100, mP4)]

/-- One session `u1` (session id 1), registered and alone in room `A`. -/
def wOneA : World :=
  ⟨⟨[("u1", 1)], [("A", ["u1"])], []⟩, [(1, ⟨"u1", some "A", initSQ, []⟩)], defaultCfg, 0⟩

/-- Two sessions (ids 1 and 2) authenticated as the same user `u`, neither
registered yet: the reconnect scenario. -/
def wReconnect : World :=
  ⟨⟨[], [], []⟩,
   [(1, ⟨"u", none, initSQ, []⟩), (2, ⟨"u", none, initSQ, []⟩)],
   defaultCfg, 0⟩

theorem lookupD_dictInsert_self {κ α : Type} [DecidableEq κ] (d : List (κ × α)) (k : κ) (v : α) :
    lookupD (dictInsert d k v) k = some v := by
  induction d with
  | nil => simp [dictInsert, lookupD]
  | cons p t ih =>
    obtain ⟨k', v'⟩ := p
    by_cases h : k' = k
    · simp [dictInsert, h, lookupD]
    · simp [dictInsert, h, lookupD, Ne.symm h, ih]

theorem lookupD_dictInsert_ne {κ α : Type} [DecidableEq κ] (d : List (κ × α)) (k k₂ : κ) (v : α)
    (h : k₂ ≠ k) : lookupD (dictInsert d k v) k₂ = lookupD d k₂ := by
  induction d with
  | nil => simp [dictInsert, lookupD, h]
  | cons p t ih =>
    obtain ⟨k', v'⟩ := p
    by_cases hk : k' = k
    · subst hk
      simp [dictInsert, lookupD, h]
    · by_cases hk2 : k₂ = k'
      · simp [dictInsert, hk, lookupD, hk2]
      · simp [dictInsert, hk, lookupD, hk2, ih]

theorem lookupD_dictUpdate_self {κ α : Type} [DecidableEq κ] (f : α → α) (d : List (κ × α)) (k : κ) :
    lookupD (dictUpdate f d k) k = (lookupD d k).map f := by
  induction d with
  | nil => simp [dictUpdate, lookupD]
  | cons p t ih =>
    obtain ⟨k', v'⟩ := p
    by_cases h : k' = k
    · simp [dictUpdate, h, lookupD]
    · simp [dictUpdate, h, lookupD, Ne.symm h, ih]

theorem lookupD_dictUpdate_ne {κ α : Type} [DecidableEq κ] (f : α → α) (d : List (κ × α)) (k k₂ : κ)
    (h : k₂ ≠ k) : lookupD (dictUpdate f d k) k₂ = lookupD d k₂ := by
  induction d with
  | nil => simp [dictUpdate, lookupD]
  | cons p t ih =>
    obtain ⟨k', v'⟩ := p
    by_cases hk : k' = k
    · subst hk
      simp [dictUpdate, lookupD, h]
    · by_cases hk2 : k₂ = k'
      · simp [dictUpdate, hk, lookupD, hk2]
      · simp [dictUpdate, hk, lookupD, hk2, ih]

theorem lookupD_dictErase_ne {κ α : Type} [DecidableEq κ] (d : List (κ × α)) (k k₂ : κ)
    (h : k₂ ≠ k) : lookupD (dictErase d k) k₂ = lookupD d k₂ := by
  induction d with
  | nil => simp [dictErase, lookupD]
  | cons p t ih =>
    obtain ⟨k', v'⟩ := p
    by_cases hk : k' = k
    · subst hk
      simp [dictErase, lookupD, h]
    · by_cases hk2 : k₂ = k'
      · simp [dictErase, hk, lookupD, hk2]
      · simp [dictErase, hk, lookupD, hk2, ih]

theorem lookupD_append {κ α : Type} [DecidableEq κ] (d₁ d₂ : List (κ × α)) (k : κ) :
    lookupD (d₁ ++ d₂) k = optOr (lookupD d₁ k) (lookupD d₂ k) := by
  induction d₁ with
  | nil => simp [lookupD, optOr]
  | cons p t ih =>
    obtain ⟨k', v'⟩ := p
    by_cases h : k = k'
    · simp [lookupD, h, optOr]
    · simp [lookupD, h, ih]

theorem lookupD_eq_none_iff {κ α : Type} [DecidableEq κ] (d : List (κ × α)) (k : κ) :
    lookupD d k = none ↔ k ∉ d.map Prod.fst := by
  induction d with
  | nil => simp [lookupD]
  | cons p t ih =>
    obtain ⟨k', v'⟩ := p
    by_cases h : k = k'
    · simp [lookupD, h]
    · simp [lookupD, h, ih]

theorem mapFst_dictInsert {κ α : Type} [DecidableEq κ] (d : List (κ × α)) (k : κ) (v : α) :
    (dictInsert d k v).map Prod.fst
      = if k ∈ d.map Prod.fst then d.map Prod.fst else d.map Prod.fst ++ [k] := by
  induction d with
  | nil => simp [dictInsert]
  | cons p t ih =>
    obtain ⟨k', v'⟩ := p
    by_cases h : k' = k
    · simp [dictInsert, h]
    · simp only [dictInsert, if_neg h, List.map_cons, ih]
      by_cases hm : k ∈ t.map Prod.fst
      · simp [hm, Ne.symm h]
      · simp [hm, Ne.symm h]

theorem nodup_mapFst_dictInsert {κ α : Type} [DecidableEq κ] (d : List (κ × α)) (k : κ) (v : α)
    (h : (d.map Prod.fst).Nodup) : ((dictInsert d k v).map Prod.fst).Nodup := by
  rw [mapFst_dictInsert]
  by_cases hm : k ∈ d.map Prod.fst
  · simpa [hm] using h
  · rw [if_neg hm]
    rw [List.nodup_append]
    exact ⟨h, List.nodup_singleton k, by
      intro a ha hb
      simp only [List.mem_singleton] at hb
      exact hm (hb ▸ ha)⟩

theorem mem_dictInsert {κ α : Type} [DecidableEq κ] (d : List (κ × α)) (k : κ) (v : α) (p : κ × α)
    (h : p ∈ dictInsert d k v) : p = (k, v) ∨ p ∈ d := by
  induction d with
  | nil => simpa [dictInsert] using h
  | cons q t ih =>
    obtain ⟨k', v'⟩ := q
    by_cases hk : k' = k
    · simp only [dictInsert, if_pos hk, List.mem_cons] at h
      rcases h with h | h
      · exact Or.inl h
      · exact Or.inr (List.mem_cons_of_mem _ h)
    · simp only [dictInsert, if_neg hk, List.mem_cons] at h
      rcases h with h | h
      · exact Or.inr (by simp [h])
      · rcases ih h with h | h
        · exact Or.inl h
        · exact Or.inr (List.mem_cons_of_mem _ h)

theorem lookupD_of_mem {κ α : Type} [DecidableEq κ] (d : List (κ × α)) (k : κ) (v : α)
    (hnd : (d.map Prod.fst).Nodup) (hm : (k, v) ∈ d) : lookupD d k = some v := by
  induction d with
  | nil => simp at hm
  | cons p t ih =>
    obtain ⟨k', v'⟩ := p
    simp only [List.map_cons, List.nodup_cons] at hnd
    rcases List.mem_cons.mp hm with h | h
    · obtain ⟨h1, h2⟩ := Prod.mk.injEq .. ▸ h
      simp [lookupD, h1, h2]
    · have hne : k ≠ k' := by
        rintro rfl
        exact hnd.1 (List.mem_map_of_mem Prod.fst h)
      simp [lookupD, hne, ih hnd.2 h]

theorem maybe_disconnect_queue (cfg : Cfg) (s : SQ) :
    (maybe_disconnect_for_drops cfg s).queue = s.queue := by
  unfold maybe_disconnect_for_drops
  split <;> rfl

theorem maybe_disconnect_dropped (cfg : Cfg) (s : SQ) :
    (maybe_disconnect_for_drops cfg s).dropped = s.dropped := by
  unfold maybe_disconnect_for_drops
  split <;> rfl

theorem maybe_disconnect_coalesceLatest (cfg : Cfg) (s : SQ) :
    (maybe_disconnect_for_drops cfg s).coalesceLatest = s.coalesceLatest := by
  unfold maybe_disconnect_for_drops
  split <;> rfl

theorem maybe_disconnect_coalesceUntil (cfg : Cfg) (s : SQ) :
    (maybe_disconnect_for_drops cfg s).coalesceUntil = s.coalesceUntil := by
  unfold maybe_disconnect_for_drops
  split <;> rfl

theorem queue_full_iff (cfg : Cfg) (q : List Msg) :
    queue_full cfg q = true ↔ 0 < cfg.sendQueueMax ∧ cfg.sendQueueMax ≤ q.length := by
  simp [queue_full]

theorem put_nowait_bound (cfg : Cfg) (s : SQ) (m : Msg)
    (hpos : 0 < cfg.sendQueueMax) (h : s.queue.length ≤ cfg.sendQueueMax) :
    (put_nowait cfg s m).1.queue.length ≤ cfg.sendQueueMax := by
  unfold put_nowait
  by_cases hf : queue_full cfg s.queue = true
  · simp [hf, maybe_disconnect_queue, h]
  · have : ¬ (0 < cfg.sendQueueMax ∧ cfg.sendQueueMax ≤ s.queue.length) := by
      rw [← queue_full_iff]
      simpa using hf
    have hlt : s.queue.length < cfg.sendQueueMax := by
      rcases Nat.lt_or_ge s.queue.length cfg.sendQueueMax with h' | h'
      · exact h'
      · exact absurd ⟨hpos, h'⟩ this
    simp [hf, List.length_append]
    omega

theorem enqueue_coalescable (cfg : Cfg) (s : SQ) (now : Rat) (m : Msg)
    (hc : cfg.coalesceTypes.contains m.mtype = true) (hw : 0 < cfg.coalesceWindowMs) :
    enqueue_message cfg s now m =
      ({ s with
          coalesceUntil := if s.coalesceUntil ≤ now then now + windowS cfg else s.coalesceUntil,
          coalesceLatest := dictInsert s.coalesceLatest m.mtype m }, true) := by
  unfold enqueue_message
  rw [if_pos (show cfg.coalesceTypes.contains m.mtype ∧ 0 < cfg.coalesceWindowMs from ⟨hc, hw⟩)]
  by_cases h : s.coalesceUntil ≤ now
  · simp [h]
  · simp [h]

theorem enqueue_message_bound (cfg : Cfg) (s : SQ) (now : Rat) (m : Msg)
    (hpos : 0 < cfg.sendQueueMax) (h : s.queue.length ≤ cfg.sendQueueMax) :
    (enqueue_message cfg s now m).1.queue.length ≤ cfg.sendQueueMax := by
  by_cases hc : cfg.coalesceTypes.contains m.mtype ∧ 0 < cfg.coalesceWindowMs
  · rw [enqueue_coalescable cfg s now m hc.1 hc.2]
    simpa using h
  · unfold enqueue_message
    rw [if_neg hc]
    by_cases hf : queue_full cfg s.queue = true
    · rw [if_pos hf]
      by_cases hp : policy_is_newest cfg.dropPolicy = true
      · rw [if_pos hp]
        simpa [maybe_disconnect_queue] using h
      · rw [if_neg hp]
        cases hq : s.queue with
        | nil =>
          exact put_nowait_bound cfg s m hpos h
        | cons a t =>
          apply put_nowait_bound _ _ _ hpos
          rw [maybe_disconnect_queue]
          have h2 : (a :: t).length ≤ cfg.sendQueueMax := hq ▸ h
          simp only [List.length_cons] at h2
          show t.length ≤ cfg.sendQueueMax
          omega
    · rw [if_neg hf]
      exact put_nowait_bound cfg s m hpos h

theorem flush_one_bound (cfg : Cfg) (s : SQ) (m : Msg)
    (hpos : 0 < cfg.sendQueueMax) (h : s.queue.length ≤ cfg.sendQueueMax) :
    (flush_one cfg s m).1.queue.length ≤ cfg.sendQueueMax := by
  unfold flush_one
  split_ifs with hf hp
  · simpa [maybe_disconnect_queue] using h
  · show (put_nowait cfg _ m).1.queue.length ≤ cfg.sendQueueMax
    apply put_nowait_bound _ _ _ hpos
    cases hq : s.queue with
    | nil => simp [hq]
    | cons a t =>
      have h2 : (a :: t).length ≤ cfg.sendQueueMax := hq ▸ h
      simp only [List.length_cons] at h2
      show t.length ≤ cfg.sendQueueMax
      omega
  · show (put_nowait cfg s m).1.queue.length ≤ cfg.sendQueueMax
    exact put_nowait_bound cfg s m hpos h

theorem flush_list_bound (cfg : Cfg) (pending : List (String × Msg)) :
    ∀ s : SQ, 0 < cfg.sendQueueMax → s.queue.length ≤ cfg.sendQueueMax →
    (flush_list cfg s pending).1.queue.length ≤ cfg.sendQueueMax := by
  induction pending with
  | nil =>
    intro s hpos h
    simpa [flush_list] using h
  | cons p rest ih =>
    intro s hpos h
    obtain ⟨k, m⟩ := p
    show (flush_list cfg (flush_one cfg s m).1 rest).1.queue.length ≤ cfg.sendQueueMax
    exact ih _ hpos (flush_one_bound cfg s m hpos h)

theorem flush_coalesced_bound (cfg : Cfg) (s : SQ)
    (hpos : 0 < cfg.sendQueueMax) (h : s.queue.length ≤ cfg.sendQueueMax) :
    (flush_coalesced cfg s).1.queue.length ≤ cfg.sendQueueMax := by
  unfold flush_coalesced
  exact flush_list_bound cfg s.coalesceLatest _ hpos (by simpa using h)

theorem flush_one_snd (cfg : Cfg) (s : SQ) (m : Msg) :
    (flush_one cfg s m).2 = some m ∨ (flush_one cfg s m).2 = none := by
  unfold flush_one
  split_ifs with hf hp
  · right; rfl
  · cases h2 : (put_nowait cfg (match s.queue with | [] => s | _ :: t => { s with queue := t }) m).2 <;>
      simp [h2]
  · cases h2 : (put_nowait cfg s m).2 <;> simp [h2]

theorem flush_list_frames_sublist (cfg : Cfg) (pending : List (String × Msg)) :
    ∀ s : SQ, ((flush_list cfg s pending).2).Sublist (pending.map Prod.snd) := by
  induction pending with
  | nil => intro s; simp [flush_list]
  | cons p rest ih =>
    intro s
    obtain ⟨k, m⟩ := p
    show ((flush_one cfg s m).2.toList ++ (flush_list cfg (flush_one cfg s m).1 rest).2).Sublist
      (m :: rest.map Prod.snd)
    rcases flush_one_snd cfg s m with h | h
    · rw [h]
      exact List.Sublist.cons₂ m (ih _)
    · rw [h]
      exact List.Sublist.cons m (ih _)

theorem processAll_coalescable (cfg : Cfg) (msgs : List (Rat × Msg)) :
    ∀ s : SQ, 0 < cfg.coalesceWindowMs →
    (∀ p ∈ msgs, cfg.coalesceTypes.contains (Prod.snd p).mtype = true) →
    (∀ p ∈ msgs, Prod.fst p < s.coalesceUntil) →
    processAll cfg s msgs =
      { s with coalesceLatest := msgs.foldl (fun d p => dictInsert d (Prod.snd p).mtype p.2) s.coalesceLatest } := by
  induction msgs with
  | nil => intro s _ _ _; simp [processAll]
  | cons p rest ih =>
    intro s hw hall hwin
    obtain ⟨t, m⟩ := p
    have hc : cfg.coalesceTypes.contains m.mtype = true := hall (t, m) (List.mem_cons_self _ _)
    have ht : t < s.coalesceUntil := hwin (t, m) (List.mem_cons_self _ _)
    show processAll cfg (enqueue_message cfg s t m).1 rest = _
    rw [enqueue_coalescable cfg s t m hc hw]
    have hnle : ¬ s.coalesceUntil ≤ t := not_le.mpr ht
    rw [if_neg hnle]
    show processAll cfg { s with coalesceLatest := dictInsert s.coalesceLatest m.mtype m } rest = _
    rw [ih { s with coalesceLatest := dictInsert s.coalesceLatest m.mtype m } hw
      (fun q hq => hall q (List.mem_cons_of_mem _ hq))
      (fun q hq => hwin q (List.mem_cons_of_mem _ hq))]
    rfl

theorem lookupD_foldInsert (msgs : List (Rat × Msg)) :
    ∀ (d : List (String × Msg)) (ty : String),
    lookupD (msgs.foldl (fun d p => dictInsert d (Prod.snd p).mtype p.2) d) ty
      = optOr (lastOfType msgs ty) (lookupD d ty) := by
  induction msgs with
  | nil => intro d ty; simp [lastOfType, optOr]
  | cons p rest ih =>
    intro d ty
    show lookupD (rest.foldl _ (dictInsert d p.2.mtype p.2)) ty = _
    rw [ih]
    cases hres : lastOfType rest ty with
    | some v => simp [lastOfType, hres, optOr]
    | none =>
      by_cases hty : p.2.mtype = ty
      · rw [hty, lookupD_dictInsert_self]
        simp [lastOfType, hres, optOr, hty]
      · rw [lookupD_dictInsert_ne _ _ _ _ (fun h => hty h.symm)]
        simp [lastOfType, hres, optOr, hty]

theorem keys_nodup_foldInsert (msgs : List (Rat × Msg)) :
    ∀ d : List (String × Msg), (d.map Prod.fst).Nodup →
    ((msgs.foldl (fun d p => dictInsert d (Prod.snd p).mtype p.2) d).map Prod.fst).Nodup := by
  induction msgs with
  | nil => intro d h; simpa using h
  | cons p rest ih =>
    intro d h
    exact ih _ (nodup_mapFst_dictInsert _ _ _ h)

theorem enqueueToSid_factory (w : World) (sid : Nat) (m : Msg) :
    (enqueueToSid w sid m).factory = w.factory := rfl

theorem enqueueToSid_cfg (w : World) (sid : Nat) (m : Msg) :
    (enqueueToSid w sid m).cfg = w.cfg := rfl

theorem enqueueToSid_now (w : World) (sid : Nat) (m : Msg) :
    (enqueueToSid w sid m).now = w.now := rfl

theorem sendStep_factory (m : Msg) (ex : Option String) (w : World) (uid : String) :
    (sendStep m ex w uid).factory = w.factory := by
  unfold sendStep
  split
  · rfl
  · split <;> rfl

theorem sendStep_cfg (m : Msg) (ex : Option String) (w : World) (uid : String) :
    (sendStep m ex w uid).cfg = w.cfg := by
  unfold sendStep
  split
  · rfl
  · split <;> rfl

theorem sendStep_now (m : Msg) (ex : Option String) (w : World) (uid : String) :
    (sendStep m ex w uid).now = w.now := by
  unfold sendStep
  split
  · rfl
  · split <;> rfl

theorem sendFold_factory (m : Msg) (ex : Option String) (members : List String) :
    ∀ w : World, ((members.foldl (sendStep m ex) w)).factory = w.factory := by
  induction members with
  | nil => intro w; rfl
  | cons u rest ih =>
    intro w
    show ((rest.foldl (sendStep m ex) (sendStep m ex w u))).factory = w.factory
    rw [ih, sendStep_factory]

theorem sendFold_cfg (m : Msg) (ex : Option String) (members : List String) :
    ∀ w : World, ((members.foldl (sendStep m ex) w)).cfg = w.cfg := by
  induction members with
  | nil => intro w; rfl
  | cons u rest ih =>
    intro w
    show ((rest.foldl (sendStep m ex) (sendStep m ex w u))).cfg = w.cfg
    rw [ih, sendStep_cfg]

theorem sendFold_now (m : Msg) (ex : Option String) (members : List String) :
    ∀ w : World, ((members.foldl (sendStep m ex) w)).now = w.now := by
  induction members with
  | nil => intro w; rfl
  | cons u rest ih =>
    intro w
    show ((rest.foldl (sendStep m ex) (sendStep m ex w u))).now = w.now
    rw [ih, sendStep_now]

theorem sendStep_conns_frame (m : Msg) (ex : Option String) (w : World) (uid : String) (sid : Nat)
    (h : ∀ s, lookupD w.factory.connections uid = some s → s ≠ sid) :
    lookupD (sendStep m ex w uid).conns sid = lookupD w.conns sid := by
  unfold sendStep
  split
  · rfl
  · rename_i s hs2
    split
    · exact lookupD_dictUpdate_ne _ _ _ _ (Ne.symm (h s hs2))
    · rfl

theorem sendFold_frame (m : Msg) (ex : Option String) (members : List String) :
    ∀ (w : World) (sid : Nat),
    (∀ uid ∈ members, ∀ s, lookupD w.factory.connections uid = some s → s ≠ sid) →
    lookupD ((members.foldl (sendStep m ex) w)).conns sid = lookupD w.conns sid := by
  induction members with
  | nil => intro w sid _; rfl
  | cons u rest ih =>
    intro w sid h
    show lookupD ((rest.foldl (sendStep m ex) (sendStep m ex w u))).conns sid = _
    rw [ih _ sid (by
      intro uid hu s hs
      apply h uid (List.mem_cons_of_mem _ hu) s
      rw [← sendStep_factory m ex w u]
      exact hs)]
    exact sendStep_conns_frame m ex w u sid (h u (List.mem_cons_self _ _))

theorem sendFold_spec (m : Msg) (ex : Option String) (members : List String) :
    ∀ (w : World) (uid : String) (sid : Nat) (c : Conn),
    members.Nodup →
    (∀ u₁ u₂ s, lookupD w.factory.connections u₁ = some s →
      lookupD w.factory.connections u₂ = some s → u₁ = u₂) →
    uid ∈ members → excludeOk ex uid = true →
    lookupD w.factory.connections uid = some sid →
    lookupD w.conns sid = some c →
    lookupD ((members.foldl (sendStep m ex) w)).conns sid
      = some { c with sq := (enqueue_message w.cfg c.sq w.now m).1 } := by
  induction members with
  | nil => intro w uid sid c _ _ hmem _ _ _; simp at hmem
  | cons u rest ih =>
    intro w uid sid c hnd hinj hmem hex hconn hc
    by_cases hu : u = uid
    · subst hu
      show lookupD ((rest.foldl (sendStep m ex) (sendStep m ex w u))).conns sid = _
      have hstep : sendStep m ex w u = enqueueToSid w sid m := by
        simp [sendStep, hconn, hex]
      rw [hstep]
      rw [sendFold_frame m ex rest (enqueueToSid w sid m) sid (by
        intro uid' hu' s hs
        rw [enqueueToSid_factory] at hs
        intro hssid
        have huu : uid' = u := hinj uid' u sid (hssid ▸ hs) hconn
        exact (List.nodup_cons.mp hnd).1 (huu ▸ hu'))]
      unfold enqueueToSid
      rw [lookupD_dictUpdate_self, hc]
      rfl
    · have hmem' : uid ∈ rest := by
        rcases List.mem_cons.mp hmem with h | h
        · exact absurd h.symm hu
        · exact h
      show lookupD ((rest.foldl (sendStep m ex) (sendStep m ex w u))).conns sid = _
      have hfac : (sendStep m ex w u).factory = w.factory := sendStep_factory m ex w u
      have hcfg : (sendStep m ex w u).cfg = w.cfg := sendStep_cfg m ex w u
      have hnow : (sendStep m ex w u).now = w.now := sendStep_now m ex w u
      have hcs : lookupD (sendStep m ex w u).conns sid = some c := by
        rw [sendStep_conns_frame m ex w u sid (by
          intro s hs hssid
          exact hu (hinj u uid sid (hssid ▸ hs) hconn))]
        exact hc
      have := ih (sendStep m ex w u) uid sid c (List.nodup_cons.mp hnd).2
        (by rw [hfac]; exact hinj) hmem' hex (by rw [hfac]; exact hconn) hcs
      rw [hcfg, hnow] at this
      exact this

theorem types_aligned_foldInsert (msgs : List (Rat × Msg)) :
    ∀ d : List (String × Msg), (∀ q ∈ d, (Prod.snd q).mtype = q.1) →
    ∀ q ∈ msgs.foldl (fun d p => dictInsert d (Prod.snd p).mtype p.2) d, (Prod.snd q).mtype = q.1 := by
  induction msgs with
  | nil => intro d h; simpa using h
  | cons p rest ih =>
    intro d h
    apply ih
    intro q hq
    rcases mem_dictInsert _ _ _ _ hq with h1 | h1
    · rw [h1]
    · exact h q h1

theorem optOr_none {α : Type} (a : Option α) : optOr a none = a := by
  cases a <;> rfl

theorem contains_iff_mem (l : List String) (a : String) : l.contains a = true ↔ a ∈ l := by
  simp [List.contains]

theorem lookupD_dictErase_self_nodup {κ α : Type} [DecidableEq κ] (d : List (κ × α)) (k : κ)
    (h : (d.map Prod.fst).Nodup) : lookupD (dictErase d k) k = none := by
  induction d with
  | nil => rfl
  | cons p t ih =>
    obtain ⟨k', v'⟩ := p
    simp only [List.map_cons, List.nodup_cons] at h
    by_cases hk : k' = k
    · simp only [dictErase, if_pos hk]
      rw [lookupD_eq_none_iff, ← hk]
      exact h.1
    · simp only [dictErase, if_neg hk]
      simp only [lookupD, if_neg (show k ≠ k' from fun he => hk he.symm)]
      exact ih h.2

theorem mapFst_dictUpdate {κ α : Type} [DecidableEq κ] (f : α → α) (d : List (κ × α)) (k : κ) :
    (dictUpdate f d k).map Prod.fst = d.map Prod.fst := by
  induction d with
  | nil => rfl
  | cons p t ih =>
    obtain ⟨k', v'⟩ := p
    by_cases hk : k' = k
    · simp [dictUpdate, hk]
    · simp [dictUpdate, hk, ih]

theorem mem_addMember_self (mem : List String) (uid : String) : uid ∈ addMember mem uid := by
  unfold addMember
  by_cases h : mem.contains uid
  · rw [if_pos h]
    exact (contains_iff_mem mem uid).mp h
  · rw [if_neg h]
    exact List.mem_append_right _ (List.mem_singleton_self uid)

theorem mem_addMember_iff (mem : List String) (uid u : String) :
    u ∈ addMember mem uid ↔ u ∈ mem ∨ u = uid := by
  unfold addMember
  by_cases h : mem.contains uid
  · rw [if_pos h]
    constructor
    · exact Or.inl
    · rintro (hm | rfl)
      · exact hm
      · exact (contains_iff_mem mem u).mp h
  · rw [if_neg h]
    simp

theorem rooms_join_self (f : Factory) (uid r : String) :
    lookupD (factory_join_room f uid r).rooms r = some (addMember (membersOf f r) uid) := by
  unfold factory_join_room membersOf
  cases hl : lookupD f.rooms r with
  | none =>
    simp only [hl, Option.isSome_none, Bool.false_eq_true, if_false]
    rw [lookupD_dictUpdate_self, lookupD_append, hl]
    simp [lookupD, optOr]
  | some mem =>
    simp only [hl, Option.isSome_some, if_true]
    rw [lookupD_dictUpdate_self, hl]
    rfl

theorem rooms_join_ne (f : Factory) (uid r r' : String) (h : r' ≠ r) :
    lookupD (factory_join_room f uid r).rooms r' = lookupD f.rooms r' := by
  unfold factory_join_room
  cases hl : lookupD f.rooms r with
  | none =>
    simp only [hl, Option.isSome_none, Bool.false_eq_true, if_false]
    rw [lookupD_dictUpdate_ne _ _ _ _ h, lookupD_append]
    simp [lookupD, if_neg h, optOr_none]
  | some mem =>
    simp only [hl, Option.isSome_some, if_true]
    exact lookupD_dictUpdate_ne _ _ _ _ h

theorem rooms_leave_ne (f : Factory) (uid r r' : String) (h : r' ≠ r) :
    lookupD (factory_leave_room f uid r).rooms r' = lookupD f.rooms r' := by
  unfold factory_leave_room
  cases hl : lookupD f.rooms r with
  | none => rfl
  | some mem =>
    by_cases hcont : mem.contains uid
    · simp only [hcont, if_true]
      by_cases hemp : (mem.erase uid).isEmpty
      · simp only [hemp, if_true]
        exact lookupD_dictErase_ne _ _ _ h
      · simp only [hemp, Bool.false_eq_true, if_false]
        exact lookupD_dictUpdate_ne _ _ _ _ h
    · simp only [hcont, Bool.false_eq_true, if_false]

theorem keys_nodup_join (f : Factory) (uid r : String)
    (h : (f.rooms.map Prod.fst).Nodup) :
    ((factory_join_room f uid r).rooms.map Prod.fst).Nodup := by
  unfold factory_join_room
  cases hl : lookupD f.rooms r with
  | none =>
    simp only [hl, Option.isSome_none, Bool.false_eq_true, if_false]
    rw [mapFst_dictUpdate, List.map_append]
    rw [List.nodup_append]
    refine ⟨h, List.nodup_singleton r, ?_⟩
    intro a ha hb
    simp only [List.map_cons, List.map_nil, List.mem_singleton] at hb
    subst hb
    exact ((lookupD_eq_none_iff f.rooms a).mp hl) ha
  | some mem =>
    simp only [hl, Option.isSome_some, if_true]
    rw [mapFst_dictUpdate]
    exact h

theorem not_mem_after_leave (f : Factory) (uid r : String)
    (hkeys : (f.rooms.map Prod.fst).Nodup) (hnd : (membersOf f r).Nodup) :
    uid ∉ membersOf (factory_leave_room f uid r) r := by
  unfold factory_leave_room
  cases hl : lookupD f.rooms r with
  | none => simp [membersOf, hl]
  | some mem =>
    have hmem : membersOf f r = mem := by simp [membersOf, hl]
    rw [hmem] at hnd
    by_cases hcont : mem.contains uid
    · simp only [hcont, if_true]
      by_cases hemp : (mem.erase uid).isEmpty
      · simp only [hemp, if_true, membersOf]
        rw [lookupD_dictErase_self_nodup _ _ hkeys]
        simp
      · simp only [hemp, Bool.false_eq_true, if_false, membersOf]
        rw [lookupD_dictUpdate_self, hl]
        show uid ∉ mem.erase uid
        intro hin
        exact ((List.Nodup.mem_erase_iff hnd).mp hin).1 rfl
    · simp only [hcont, Bool.false_eq_true, if_false]
      rw [hmem]
      intro hin
      exact hcont ((contains_iff_mem mem uid).mpr hin)

/-- Claim C6: for every Session and every sequence of enqueue operations
(direct enqueues and coalesce flushes, under any drop policy), the outbound
queue length never exceeds `send_queue_max`; every operation preserves the
bound. (The bound is the `asyncio.Queue` maxsize, which is a bound exactly
when it is positive.) -/
theorem c6_queue_bound (cfg : Cfg) (s : SQ) (ops : List QOp)
    (hpos : 0 < cfg.sendQueueMax) (h : s.queue.length ≤ cfg.sendQueueMax) :
    (ops.foldl (applyQOp cfg) s).queue.length ≤ cfg.sendQueueMax := by
  induction ops generalizing s with
  | nil => exact h
  | cons op rest ih =>
    show ((rest.foldl (applyQOp cfg) (applyQOp cfg s op))).queue.length ≤ _
    apply ih
    cases op with
    | recv now m => exact enqueue_message_bound cfg s now m hpos h
    | flushNow => exact flush_coalesced_bound cfg s hpos h

/-- Witness for C6 at the default configuration, one enqueue and one flush. -/
theorem c6_queue_bound_witness :
    0 < defaultCfg.sendQueueMax ∧ initSQ.queue.length ≤ defaultCfg.sendQueueMax ∧
    (([QOp.recv 0 mQ0, QOp.flushNow].foldl (applyQOp defaultCfg) initSQ)).queue.length
      ≤ defaultCfg.sendQueueMax :=
  ⟨by decide, by decide,
   c6_queue_bound defaultCfg initSQ [QOp.recv 0 mQ0, QOp.flushNow] (by decide) (by decide)⟩

/-- Claim C5: with the queue exactly at its (positive) bound and an
effectively-`oldest` drop policy, enqueueing a non-coalescable message
removes the head, appends the new payload as the tail, counts exactly one
drop, and reports acceptance; concretely, with `send_queue_max = 2` and a
stalled writer, enqueueing M1, M2, M3 leaves the queue [M2, M3] with
`dropped_count = 1`. -/
theorem c5_drop_oldest :
    (∀ (cfg : Cfg) (s : SQ) (now : Rat) (m : Msg),
      cfg.coalesceTypes.contains m.mtype = false →
      cfg.dropPolicy = "oldest" →
      0 < cfg.sendQueueMax →
      s.queue.length = cfg.sendQueueMax →
      (enqueue_message cfg s now m).1.queue = s.queue.tail ++ [m]
      ∧ (enqueue_message cfg s now m).1.dropped = s.dropped + 1
      ∧ (enqueue_message cfg s now m).2 = true)
    ∧ sS5.queue = [mS5b, mS5c] ∧ sS5.dropped = 1 := by
  constructor
  · intro cfg s now m hct hp hpos hlen
    have hc : ¬ (cfg.coalesceTypes.contains m.mtype ∧ 0 < cfg.coalesceWindowMs) := by
      intro h2
      have h3 := h2.1
      rw [hct] at h3
      exact Bool.false_ne_true h3
    have hf : queue_full cfg s.queue = true :=
      (queue_full_iff _ _).mpr ⟨hpos, le_of_eq hlen.symm⟩
    have hpn : policy_is_newest cfg.dropPolicy = false := by
      rw [hp]; decide
    obtain ⟨a, t, hq⟩ : ∃ a t, s.queue = a :: t := by
      cases hq : s.queue with
      | nil =>
        rw [hq] at hlen
        simp at hlen
        omega
      | cons a t => exact ⟨a, t, rfl⟩
    have htl : t.length + 1 = cfg.sendQueueMax := by
      rw [hq] at hlen
      simpa using hlen
    unfold enqueue_message
    rw [if_neg hc, if_pos hf, if_neg (by simp [hpn])]
    simp only [hq]
    have hmd : (maybe_disconnect_for_drops cfg { s with queue := t, dropped := s.dropped + 1 }).queue = t :=
      maybe_disconnect_queue _ _
    have hmdd : (maybe_disconnect_for_drops cfg { s with queue := t, dropped := s.dropped + 1 }).dropped = s.dropped + 1 :=
      maybe_disconnect_dropped _ _
    have hfull' : queue_full cfg (maybe_disconnect_for_drops cfg { s with queue := t, dropped := s.dropped + 1 }).queue = false := by
      rw [hmd]
      simp only [queue_full, Bool.and_eq_false_iff, decide_eq_false_iff_not, not_le, not_lt]
      right
      omega
    unfold put_nowait
    rw [if_neg (by simp [hfull'])]
    refine ⟨?_, ?_, rfl⟩
    · simp only [hmd, hq, List.tail_cons]
    · simp only [hmdd]
  · exact ⟨by decide, by decide⟩

/-- Witness for the general part of C5 at the S5 configuration, with the
queue holding [M1, M2] and M3 arriving. -/
theorem c5_drop_oldest_witness :
    (enqueue_message cfgS5 ⟨[mS5a, mS5b], 0, [], 0, 2, none⟩ 0 mS5c).1.queue
        = (⟨[mS5a, mS5b], 0, [], 0, 2, none⟩ : SQ).queue.tail ++ [mS5c]
    ∧ (enqueue_message cfgS5 ⟨[mS5a, mS5b], 0, [], 0, 2, none⟩ 0 mS5c).1.dropped
        = (⟨[mS5a, mS5b], 0, [], 0, 2, none⟩ : SQ).dropped + 1
    ∧ (enqueue_message cfgS5 ⟨[mS5a, mS5b], 0, [], 0, 2, none⟩ 0 mS5c).2 = true :=
  c5_drop_oldest.1 cfgS5 ⟨[mS5a, mS5b], 0, [], 0, 2, none⟩ 0 mS5c (by decide) rfl (by decide) (by decide)

/-- Counterexample to claim C9 as stated: with threshold T = 1 and a full
bound-1 queue, one overflow drop makes `dropped_count = 1 = T` — the count
does not strictly exceed the threshold — yet the session is closed with
code 4002, because the code tests `dropped_count >= threshold`. -/
theorem c9_counterexample :
    (enqueue_message cfgT1 sFullT1 0 mDrop).1.closeCode = some 4002
    ∧ (enqueue_message cfgT1 sFullT1 0 mDrop).1.dropped = cfgT1.slowThreshold
    ∧ ¬ ((enqueue_message cfgT1 sFullT1 0 mDrop).1.dropped > cfgT1.slowThreshold) := by
  refine ⟨by decide, by decide, by decide⟩

/-- Claim C9 (amended): with a configured threshold T, the 4002 close fires
exactly when T ≠ 0 and the cumulative `dropped_count` has reached T
(`dropped_count ≥ T`, not strictly greater); with the default T = 0 the
check never fires. -/
theorem c9_amended :
    (∀ (cfg : Cfg) (s : SQ), s.closeCode = none →
      ((maybe_disconnect_for_drops cfg s).closeCode = some 4002
        ↔ (cfg.slowThreshold ≠ 0 ∧ cfg.slowThreshold ≤ s.dropped)))
    ∧ (∀ (cfg : Cfg) (s : SQ), cfg.slowThreshold = 0 →
        maybe_disconnect_for_drops cfg s = s) := by
  constructor
  · intro cfg s h
    unfold maybe_disconnect_for_drops
    by_cases hc : cfg.slowThreshold ≠ 0 ∧ cfg.slowThreshold ≤ s.dropped
    · simp [hc]
    · simp [hc, h]
  · intro cfg s h
    unfold maybe_disconnect_for_drops
    simp [h]

/-- Witness for C9 (amended): a session one drop past a threshold of 1, and
the default zero threshold. -/
theorem c9_amended_witness :
    ((maybe_disconnect_for_drops cfgT1 sDrop1).closeCode = some 4002
      ↔ (cfgT1.slowThreshold ≠ 0 ∧ cfgT1.slowThreshold ≤ sDrop1.dropped))
    ∧ maybe_disconnect_for_drops defaultCfg initSQ = initSQ :=
  ⟨c9_amended.1 cfgT1 sDrop1 rfl, c9_amended.2 defaultCfg initSQ rfl⟩

/-- Claim C7: the handshake closes with 4000 and sends nothing when the
token is missing; closes with 4001 carrying the verifier's error string and
sends nothing when verification fails; and on success records the user id,
registers the session, and sends exactly one `connection_success`. -/
theorem c7_handshake :
    (∀ (tokOpt : Option String) (verify : String → VerifyResult),
      tokenMissing tokOpt = true →
      onOpen_effects tokOpt verify = [.close 4000 "Authentication required"])
    ∧ (∀ (tok : String) (verify : String → VerifyResult) (r : String),
        tok ≠ "" → verify tok = .err r →
        onOpen_effects (some tok) verify = [.close 4001 r])
    ∧ (∀ (tok : String) (verify : String → VerifyResult) (uid : String),
        tok ≠ "" → verify tok = .ok uid →
        onOpen_effects (some tok) verify
          = [.setUser uid, .initQueue, .register uid, .send ⟨"connection_success", uid⟩]
        ∧ ((onOpen_effects (some tok) verify).countP OEff.isSend) = 1) := by
  refine ⟨?_, ?_, ?_⟩
  · intro tokOpt verify h
    cases tokOpt with
    | none => rfl
    | some t =>
      have ht : t = "" := by simpa [tokenMissing] using h
      subst ht
      rfl
  · intro tok verify r ht hv
    simp [onOpen_effects, ht, hv]
  · intro tok verify uid ht hv
    have he : onOpen_effects (some tok) verify
        = [.setUser uid, .initQueue, .register uid, .send ⟨"connection_success", uid⟩] := by
      simp [onOpen_effects, ht, hv]
    refine ⟨he, ?_⟩
    rw [he]
    rfl

/-- Witness for C7: a missing token, a rejecting verifier, and an accepting
verifier at the token `tok`. -/
theorem c7_handshake_witness :
    onOpen_effects none verifyOk = [.close 4000 "Authentication required"]
    ∧ onOpen_effects (some "tok") verifyFail = [.close 4001 "Invalid authentication token"]
    ∧ (onOpen_effects (some "tok") verifyOk
        = [.setUser "user-1", .initQueue, .register "user-1", .send ⟨"connection_success", "user-1"⟩]
      ∧ ((onOpen_effects (some "tok") verifyOk).countP OEff.isSend) = 1) :=
  ⟨c7_handshake.1 none verifyOk rfl,
   c7_handshake.2.1 "tok" verifyFail "Invalid authentication token" (by decide) rfl,
   c7_handshake.2.2 "tok" verifyOk "user-1" (by decide) rfl⟩

/-- Claim C4: coalescable messages delivered within one coalesce window
leave the queue untouched and are buffered last-write-wins per type; the
flush enqueues at most one frame per type, each carrying the last value
received for that type in the window; and a message arriving exactly at
the window expiry instant opens a new window. -/
theorem c4_coalescing :
    (∀ (cfg : Cfg) (s0 : SQ) (t0 : Rat) (m0 : Msg) (rest : List (Rat × Msg)),
      s0.coalesceLatest = [] →
      0 < cfg.coalesceWindowMs →
      (∀ p ∈ (t0, m0) :: rest, cfg.coalesceTypes.contains (Prod.snd p).mtype = true) →
      s0.coalesceUntil ≤ t0 →
      (∀ p ∈ rest, Prod.fst p < t0 + windowS cfg) →
      (processAll cfg s0 ((t0, m0) :: rest)).queue = s0.queue
      ∧ (processAll cfg s0 ((t0, m0) :: rest)).dropped = s0.dropped
      ∧ (processAll cfg s0 ((t0, m0) :: rest)).coalesceUntil = t0 + windowS cfg
      ∧ (∀ ty, lookupD (processAll cfg s0 ((t0, m0) :: rest)).coalesceLatest ty
            = lastOfType ((t0, m0) :: rest) ty)
      ∧ (∀ ty, (((flush_coalesced cfg (processAll cfg s0 ((t0, m0) :: rest))).2).filter
            (fun x => x.mtype == ty)).length ≤ 1)
      ∧ (∀ m ∈ (flush_coalesced cfg (processAll cfg s0 ((t0, m0) :: rest))).2,
            some m = lastOfType ((t0, m0) :: rest) m.mtype))
    ∧ (∀ (cfg : Cfg) (s : SQ) (m : Msg),
        cfg.coalesceTypes.contains m.mtype = true → 0 < cfg.coalesceWindowMs →
        (enqueue_message cfg s s.coalesceUntil m).1.coalesceUntil
          = s.coalesceUntil + windowS cfg) := by
  constructor
  · intro cfg s0 t0 m0 rest hcl hw hall hge hwin
    have hc0 : cfg.coalesceTypes.contains m0.mtype = true :=
      hall (t0, m0) (List.mem_cons_self _ _)
    have h1 : (enqueue_message cfg s0 t0 m0).1
        = { s0 with coalesceUntil := t0 + windowS cfg,
                    coalesceLatest := dictInsert s0.coalesceLatest m0.mtype m0 } := by
      rw [enqueue_coalescable cfg s0 t0 m0 hc0 hw]
      simp [hge]
    have hPA : processAll cfg s0 ((t0, m0) :: rest)
        = { s0 with
            coalesceUntil := t0 + windowS cfg,
            coalesceLatest := rest.foldl (fun d p => dictInsert d (Prod.snd p).mtype p.2)
              (dictInsert s0.coalesceLatest m0.mtype m0) } := by
      show processAll cfg (enqueue_message cfg s0 t0 m0).1 rest = _
      rw [h1]
      rw [processAll_coalescable cfg rest
        { s0 with coalesceUntil := t0 + windowS cfg,
                  coalesceLatest := dictInsert s0.coalesceLatest m0.mtype m0 } hw
        (fun q hq => hall q (List.mem_cons_of_mem _ hq))
        (fun q hq => hwin q hq)]
    have hlatest : (processAll cfg s0 ((t0, m0) :: rest)).coalesceLatest
        = ((t0, m0) :: rest).foldl (fun d p => dictInsert d (Prod.snd p).mtype p.2) [] := by
      rw [hPA]
      show rest.foldl _ (dictInsert s0.coalesceLatest m0.mtype m0) = _
      rw [hcl]
      rfl
    have hlast : ∀ ty, lookupD (processAll cfg s0 ((t0, m0) :: rest)).coalesceLatest ty
        = lastOfType ((t0, m0) :: rest) ty := by
      intro ty
      rw [hlatest]
      have h2 := lookupD_foldInsert ((t0, m0) :: rest) [] ty
      rw [show lookupD ([] : List (String × Msg)) ty = none from rfl, optOr_none] at h2
      exact h2
    have hkeys : (((processAll cfg s0 ((t0, m0) :: rest)).coalesceLatest).map Prod.fst).Nodup := by
      rw [hlatest]
      exact keys_nodup_foldInsert _ [] (by simp)
    have htypes : ∀ q ∈ (processAll cfg s0 ((t0, m0) :: rest)).coalesceLatest,
        (Prod.snd q).mtype = q.1 := by
      rw [hlatest]
      exact types_aligned_foldInsert _ [] (by simp)
    have hsub : ((flush_coalesced cfg (processAll cfg s0 ((t0, m0) :: rest))).2).Sublist
        (((processAll cfg s0 ((t0, m0) :: rest)).coalesceLatest).map Prod.snd) :=
      flush_list_frames_sublist cfg _ _
    refine ⟨by rw [hPA], by rw [hPA], by rw [hPA], hlast, ?_, ?_⟩
    · intro ty
      calc (((flush_coalesced cfg (processAll cfg s0 ((t0, m0) :: rest))).2).filter
              (fun x => x.mtype == ty)).length
          = ((flush_coalesced cfg (processAll cfg s0 ((t0, m0) :: rest))).2).countP
              (fun x => x.mtype == ty) := (List.countP_eq_length_filter _ _).symm
        _ ≤ (((processAll cfg s0 ((t0, m0) :: rest)).coalesceLatest).map Prod.snd).countP
              (fun x => x.mtype == ty) := List.Sublist.countP_le _ hsub
        _ = ((processAll cfg s0 ((t0, m0) :: rest)).coalesceLatest).countP
              (fun q => (Prod.snd q).mtype == ty) := List.countP_map _ _ _
        _ = ((processAll cfg s0 ((t0, m0) :: rest)).coalesceLatest).countP
              (fun q => q.1 == ty) := List.countP_congr (fun q hq => by rw [htypes q hq])
        _ = (((processAll cfg s0 ((t0, m0) :: rest)).coalesceLatest).map Prod.fst).countP
              (fun k => k == ty) :=
            (List.countP_map (fun k => k == ty) Prod.fst
              ((processAll cfg s0 ((t0, m0) :: rest)).coalesceLatest)).symm
        _ = (((processAll cfg s0 ((t0, m0) :: rest)).coalesceLatest).map Prod.fst).count ty := rfl
        _ ≤ 1 := List.nodup_iff_count_le_one.mp hkeys ty
    · intro m hm
      have hmm : m ∈ ((processAll cfg s0 ((t0, m0) :: rest)).coalesceLatest).map Prod.snd :=
        hsub.subset hm
      obtain ⟨q, hq, hq2⟩ := List.mem_map.mp hmm
      have h4 : Prod.snd q = m := hq2
      have h5 : (Prod.snd q).mtype = Prod.fst q := htypes q hq
      have h3 : q = (m.mtype, m) := by
        rw [← h4, h5]
      have hlook : lookupD (processAll cfg s0 ((t0, m0) :: rest)).coalesceLatest m.mtype
          = some m := lookupD_of_mem _ _ _ hkeys (h3 ▸ hq)
      exact hlook.symm.trans (hlast m.mtype)
  · intro cfg s m hc hw
    rw [enqueue_coalescable cfg s s.coalesceUntil m hc hw]
    simp

/-- Witness for C4: the default configuration, a fresh session, a
`page_updated` at instant 0 opening the window, and three further
coalescable messages inside the window; the boundary part at a session
whose window expires exactly now. -/
theorem c4_coalescing_witness :
    ((processAll defaultCfg initSQ ((0, mP2) :: c4rest)).queue = initSQ.queue
      ∧ (processAll defaultCfg initSQ ((0, mP2) :: c4rest)).dropped = initSQ.dropped
      ∧ (processAll defaultCfg initSQ ((0, mP2) :: c4rest)).coalesceUntil = 0 + windowS defaultCfg
      ∧ (∀ ty, lookupD (processAll defaultCfg initSQ ((0, mP2) :: c4rest)).coalesceLatest ty
            = lastOfType ((0, mP2) :: c4rest) ty)
      ∧ (∀ ty, (((flush_coalesced defaultCfg (processAll defaultCfg initSQ ((0, mP2) :: c4rest))).2).filter
            (fun x => x.mtype == ty)).length ≤ 1)
      ∧ (∀ m ∈ (flush_coalesced defaultCfg (processAll defaultCfg initSQ ((0, mP2) :: c4rest))).2,
            some m = lastOfType ((0, mP2) :: c4rest) m.mtype))
    ∧ (enqueue_message defaultCfg initSQ initSQ.coalesceUntil mP2).1.coalesceUntil
        = initSQ.coalesceUntil + windowS defaultCfg :=
  ⟨c4_coalescing.1 defaultCfg initSQ 0 mP2 c4rest rfl (by decide) (by decide)
     (by norm_num [initSQ])
     (by
       intro p hp
       fin_cases hp <;> norm_num [windowS, defaultCfg, c4rest]),
   c4_coalescing.2 defaultCfg initSQ mP2 (by decide) (by decide)⟩

/-- Counterexample to claim C1 as stated: in a registered two-member room,
broadcasting `participant_left` — one of the kinds the claim lists as
critical — places the message on the room's pending-batch list and leaves
every member session untouched, because the code's immediate-send list is
only `['critical_update', 'song_updated', 'page_updated']`. -/
theorem c1_counterexample :
    lookupD (broadcast_to_room wTwo "R" mPLu1 (some "u1")).factory.messageQueues "R"
        = some [mPLu1]
    ∧ (broadcast_to_room wTwo "R" mPLu1 (some "u1")).conns = wTwo.conns :=
  ⟨by decide, by decide⟩

/-- Claim C1 (amended): only the types in the code's `non_batchable_types`
list (`critical_update`, `song_updated`, `page_updated`) bypass the
pending-batch list; for them, a broadcast to a registered room leaves the
batch lists untouched and synchronously attempts `enqueue_message` on each
member other than the excluded user. Every other type — including the seven
kinds the spec calls critical — is appended to the room's pending-batch
list with no enqueue on any session. -/
theorem c1_amended :
    (∀ (w : World) (roomId : String) (m : Msg) (ex : Option String) (members : List String)
        (uid : String) (sid : Nat) (c : Conn),
      lookupD w.factory.rooms roomId = some members →
      non_batchable_types.contains m.mtype = true →
      members.Nodup →
      (∀ u₁ u₂ s, lookupD w.factory.connections u₁ = some s →
        lookupD w.factory.connections u₂ = some s → u₁ = u₂) →
      uid ∈ members → excludeOk ex uid = true →
      lookupD w.factory.connections uid = some sid →
      lookupD w.conns sid = some c →
      (broadcast_to_room w roomId m ex).factory.messageQueues = w.factory.messageQueues
      ∧ lookupD (broadcast_to_room w roomId m ex).conns sid
          = some { c with sq := (enqueue_message w.cfg c.sq w.now m).1 })
    ∧ (∀ (w : World) (roomId : String) (m : Msg) (ex : Option String),
        (lookupD w.factory.rooms roomId).isSome = true →
        non_batchable_types.contains m.mtype = false →
        (broadcast_to_room w roomId m ex).conns = w.conns
        ∧ lookupD (broadcast_to_room w roomId m ex).factory.messageQueues roomId
            = some ((lookupD w.factory.messageQueues roomId).getD [] ++ [m])) := by
  constructor
  · intro w roomId m ex members uid sid c hroom hnb hnd hinj hmem hex hconn hc
    have hb : broadcast_to_room w roomId m ex = send_to_room_users w roomId m ex := by
      unfold broadcast_to_room
      rw [hroom]
      simp only [Option.isNone_some, Bool.false_eq_true, if_false]
      rw [if_pos hnb]
    have hs : send_to_room_users w roomId m ex = members.foldl (sendStep m ex) w := by
      simp only [send_to_room_users, hroom]
    rw [hb, hs]
    constructor
    · rw [show ((members.foldl (sendStep m ex) w)).factory = w.factory
        from sendFold_factory m ex members w]
    · exact sendFold_spec m ex members w uid sid c hnd hinj hmem hex hconn hc
  · intro w roomId m ex hroom hnb
    obtain ⟨mem, hmem⟩ := Option.isSome_iff_exists.mp hroom
    have hb : broadcast_to_room w roomId m ex = { w with factory := queue_message w.factory roomId m } := by
      unfold broadcast_to_room
      rw [hmem]
      simp only [Option.isNone_some, Bool.false_eq_true, if_false]
      rw [if_neg (show ¬ non_batchable_types.contains m.mtype = true by
        rw [hnb]; exact Bool.false_ne_true)]
    rw [hb]
    refine ⟨rfl, ?_⟩
    show lookupD (queue_message w.factory roomId m).messageQueues roomId = _
    unfold queue_message
    cases hq : lookupD w.factory.messageQueues roomId with
    | none =>
      simp only [hq, Option.isSome_none, Bool.false_eq_true, if_false]
      rw [lookupD_dictUpdate_self, lookupD_append, hq]
      simp [lookupD, optOr]
    | some l =>
      simp only [hq, Option.isSome_some, if_true]
      rw [lookupD_dictUpdate_self, hq]
      rfl

/-- Witness for C1 (amended): the two-member room `R`; a `song_updated`
broadcast excluding `u1` reaches `u2`'s queue synchronously, and a
`participant_left` broadcast is appended to the batch list. -/
theorem c1_amended_witness :
    ((broadcast_to_room wTwo "R" mSongA (some "u1")).factory.messageQueues
        = wTwo.factory.messageQueues
      ∧ lookupD (broadcast_to_room wTwo "R" mSongA (some "u1")).conns 2
          = some { (⟨"u2", some "R", initSQ, []⟩ : Conn) with
                    sq := (enqueue_message wTwo.cfg (⟨"u2", some "R", initSQ, []⟩ : Conn).sq wTwo.now mSongA).1 })
    ∧ ((broadcast_to_room wTwo "R" mPLu1 none).conns = wTwo.conns
      ∧ lookupD (broadcast_to_room wTwo "R" mPLu1 none).factory.messageQueues "R"
          = some ((lookupD wTwo.factory.messageQueues "R").getD [] ++ [mPLu1])) :=
  ⟨c1_amended.1 wTwo "R" mSongA (some "u1") ["u1", "u2"] "u2" 2 ⟨"u2", some "R", initSQ, []⟩
    (by decide) (by decide) (by decide)
    (by
      intro u₁ u₂ s h1 h2
      simp only [wTwo, lookupD] at h1 h2
      split_ifs at h1 h2 <;> try simp_all
      all_goals omega)
    (by decide) (by decide) (by decide) (by decide),
   c1_amended.2 wTwo "R" mPLu1 none (by decide) (by decide)⟩

/-- Counterexample to claim C3 as stated: sessions 1 and 2 both authenticate
as user `u`. Registering session 2 replaces the map entry (last write wins)
but does not close or otherwise touch session 1; when the replaced session 1
then unregisters (as `onClose` does), the map entry for `u` — which pointed
at the newer session 2 — is deleted. -/
theorem c3_counterexample :
    lookupD (register_connection (register_connection wReconnect 1) 2).factory.connections "u"
        = some 2
    ∧ (register_connection (register_connection wReconnect 1) 2).conns = wReconnect.conns
    ∧ lookupD (unregister_connection
        (register_connection (register_connection wReconnect 1) 2) 1).factory.connections "u"
        = none :=
  ⟨by decide, by decide, by decide⟩

/-- Claim C3 (amended): `register_connection` overwrites the user's map
entry (last write wins) and changes nothing else — in particular the prior
session is not closed; `unregister_connection` deletes the user's entry
whenever the closing session's `user_id` is present, regardless of which
session the map currently holds, so the close of an older, already-replaced
session removes the newer session's entry. -/
theorem c3_amended :
    (∀ (w : World) (sid : Nat) (c : Conn),
      lookupD w.conns sid = some c → c.userId ≠ "" →
      lookupD (register_connection w sid).factory.connections c.userId = some sid
      ∧ (register_connection w sid).conns = w.conns)
    ∧ (∀ (w : World) (sid : Nat) (c : Conn),
        lookupD w.conns sid = some c → c.userId ≠ "" →
        (lookupD w.factory.connections c.userId).isSome = true →
        (w.factory.connections.map Prod.fst).Nodup →
        lookupD (unregister_connection w sid).factory.connections c.userId = none) := by
  constructor
  · intro w sid c hc hu
    simp only [register_connection, hc]
    rw [if_neg hu]
    exact ⟨lookupD_dictInsert_self _ _ _, rfl⟩
  · intro w sid c hc hu hiso hnd
    simp only [unregister_connection, hc]
    rw [if_pos ⟨hu, hiso⟩]
    exact lookupD_dictErase_self_nodup _ _ hnd

/-- Witness for C3 (amended): the reconnect world; session 1 registers, and
then session 1 unregisters out of the world in which session 2 has already
replaced it. -/
theorem c3_amended_witness :
    (lookupD (register_connection wReconnect 1).factory.connections "u" = some 1
      ∧ (register_connection wReconnect 1).conns = wReconnect.conns)
    ∧ lookupD (unregister_connection
        (register_connection (register_connection wReconnect 1) 2) 1).factory.connections
        (⟨"u", none, initSQ, []⟩ : Conn).userId = none :=
  ⟨c3_amended.1 wReconnect 1 ⟨"u", none, initSQ, []⟩ (by decide) (by decide),
   c3_amended.2 (register_connection (register_connection wReconnect 1) 2) 1
     ⟨"u", none, initSQ, []⟩ (by decide) (by decide) (by decide) (by decide)⟩

/-- Claim C10: writing a direct reply with `sendMessage` (as the handlers do
for `connection_success`, `join_room_success`, `room_left` and `error`)
leaves the factory registries and every session's queueing state — queue
contents, length, dropped count, coalesce buffer — unchanged, appending
only to the target socket; and those replies do occur as direct sends in
the respective handler traces. -/
theorem c10_direct_replies :
    (∀ (w : World) (sid : Nat) (m : Msg),
      (applyHOp w sid (.opSendDirect m)).factory = w.factory
      ∧ (∀ sid', (lookupD (applyHOp w sid (.opSendDirect m)).conns sid').map (fun c => c.sq)
          = (lookupD w.conns sid').map (fun c => c.sq)))
    ∧ (∀ (w : World) (sid : Nat) (m : Msg) (c : Conn),
        lookupD w.conns sid = some c →
        lookupD (applyHOp w sid (.opSendDirect m)).conns sid
          = some { c with wire := c.wire ++ [m] })
    ∧ (∀ (selfRoom : Option String) (rid : String), rid ≠ "" →
        HOp.opSendDirect ⟨"join_room_success", rid⟩ ∈ handle_join_room_trace selfRoom (some rid))
    ∧ (∀ (rid uid : String),
        HOp.opSendDirect ⟨"room_left", rid⟩ ∈ handle_leave_room_trace (some rid) uid)
    ∧ (∀ (tok uid : String) (verify : String → VerifyResult), tok ≠ "" → verify tok = .ok uid →
        OEff.send ⟨"connection_success", uid⟩ ∈ onOpen_effects (some tok) verify) := by
  refine ⟨?_, ?_, ?_, ?_, ?_⟩
  · intro w sid m
    refine ⟨rfl, ?_⟩
    intro sid'
    by_cases h : sid' = sid
    · subst h
      show (lookupD (dictUpdate _ w.conns sid') sid').map _ = _
      rw [lookupD_dictUpdate_self]
      cases lookupD w.conns sid' <;> rfl
    · show (lookupD (dictUpdate _ w.conns sid) sid').map _ = _
      rw [lookupD_dictUpdate_ne _ _ _ _ h]
  · intro w sid m c hc
    show lookupD (dictUpdate _ w.conns sid) sid = _
    rw [lookupD_dictUpdate_self, hc]
    rfl
  · intro selfRoom rid hrid
    cases selfRoom with
    | none => simp [handle_join_room_trace, hrid]
    | some old =>
      by_cases h : old ≠ rid <;> simp [handle_join_room_trace, hrid, h]
  · intro rid uid
    simp [handle_leave_room_trace]
  · intro tok uid verify ht hv
    simp [onOpen_effects, ht, hv]

/-- Witness for C10: a direct reply on session 1 of the two-member room,
and the concrete handler traces containing their replies. -/
theorem c10_direct_replies_witness :
    ((applyHOp wTwo 1 (.opSendDirect mPLu1)).factory = wTwo.factory
      ∧ (∀ sid', (lookupD (applyHOp wTwo 1 (.opSendDirect mPLu1)).conns sid').map (fun c => c.sq)
          = (lookupD wTwo.conns sid').map (fun c => c.sq)))
    ∧ lookupD (applyHOp wTwo 1 (.opSendDirect mPLu1)).conns 1
        = some { (⟨"u1", some "R", initSQ, []⟩ : Conn) with
                  wire := (⟨"u1", some "R", initSQ, []⟩ : Conn).wire ++ [mPLu1] }
    ∧ HOp.opSendDirect ⟨"join_room_success", "R"⟩ ∈ handle_join_room_trace none (some "R")
    ∧ HOp.opSendDirect ⟨"room_left", "R"⟩ ∈ handle_leave_room_trace (some "R") "u1"
    ∧ OEff.send ⟨"connection_success", "user-1"⟩ ∈ onOpen_effects (some "tok") verifyOk :=
  ⟨c10_direct_replies.1 wTwo 1 mPLu1,
   c10_direct_replies.2.1 wTwo 1 mPLu1 ⟨"u1", some "R", initSQ, []⟩ (by decide),
   c10_direct_replies.2.2.1 none "R" (by decide),
   c10_direct_replies.2.2.2.1 "R" "u1",
   c10_direct_replies.2.2.2.2 "tok" "user-1" verifyOk (by decide) rfl⟩

/-- Evaluation of `handle_leave_room` at the failing input for claim C2: in
room `R` = {u1, u2}, u1's leave removes its membership and sends the
`room_left` reply first, and only then does the `create_task`-deferred
broadcast body run; since `participant_left` is not in
`non_batchable_types` it lands on the room's pending-batch list, and u2's
send queue is still empty when the handler completes. In the effect trace
the membership removal strictly precedes the broadcast, contradicting both
the claim and the code's own before-removal comments. -/
theorem c2_code_eval :
    handle_leave_room_trace (some "R") "u1"
      = [.opLeave "R", .opSetRoom none, .opSendDirect ⟨"room_left", "R"⟩,
         .opBroadcast "R" mPLu1 (some "u1")]
    ∧ (runTrace wTwo 1 (handle_leave_room_trace (some "R") "u1")).factory.rooms
        = [("R", ["u2"])]
    ∧ (runTrace wTwo 1 (handle_leave_room_trace (some "R") "u1")).factory.messageQueues
        = [("R", [mPLu1])]
    ∧ (lookupD (runTrace wTwo 1 (handle_leave_room_trace (some "R") "u1")).conns 2).map
        (fun c => c.sq.queue) = some []
    ∧ (lookupD (runTrace wTwo 1 (handle_leave_room_trace (some "R") "u1")).conns 1).map
        (fun c => c.wire) = some [⟨"room_left", "R"⟩]
    ∧ (handle_leave_room_trace (some "R") "u1").indexOf (HOp.opLeave "R")
        < (handle_leave_room_trace (some "R") "u1").indexOf
            (HOp.opBroadcast "R" mPLu1 (some "u1")) :=
  ⟨by decide, by decide, by decide, by decide, by decide, by decide⟩

/-- Counterexample to claim C8 as stated: a session in room `A` asking to
join room `B` performs the join of `B` strictly before the leave of `A`
(the code calls `factory.join_room` first and `factory.leave_room` only
afterwards), and after the first two effects the session is a member of
both rooms at once. -/
theorem c8_counterexample :
    handle_join_room_trace (some "A") (some "B")
      = [.opSetRoom (some "B"), .opJoin "B", .opLeave "A",
         .opSendDirect ⟨"join_room_success", "B"⟩]
    ∧ (handle_join_room_trace (some "A") (some "B")).indexOf (HOp.opJoin "B")
        < (handle_join_room_trace (some "A") (some "B")).indexOf (HOp.opLeave "A")
    ∧ "u1" ∈ membersOf
        (runTrace wOneA 1 ((handle_join_room_trace (some "A") (some "B")).take 2)).factory "A"
    ∧ "u1" ∈ membersOf
        (runTrace wOneA 1 ((handle_join_room_trace (some "A") (some "B")).take 2)).factory "B" :=
  ⟨by decide, by decide, by decide, by decide⟩

/-- Claim C8 (amended): on `join_room` to a different room the session is
first added to the new room (creating its entry if absent) and only then
removed from the old room; the final state has the session a member of
exactly the new room, and `join_room_success` is sent directly to the
joining session only. -/
theorem c8_amended :
    ∀ (w : World) (sid : Nat) (c : Conn) (rOld rNew : String),
      lookupD w.conns sid = some c →
      rNew ≠ "" → rNew ≠ rOld →
      (w.factory.rooms.map Prod.fst).Nodup →
      (membersOf w.factory rOld).Nodup →
      (∀ r, c.userId ∈ membersOf w.factory r ↔ r = rOld) →
      handle_join_room_trace (some rOld) (some rNew)
        = [.opSetRoom (some rNew), .opJoin rNew, .opLeave rOld,
           .opSendDirect ⟨"join_room_success", rNew⟩]
      ∧ (∀ r, c.userId ∈ membersOf
            (runTrace w sid (handle_join_room_trace (some rOld) (some rNew))).factory r
          ↔ r = rNew)
      ∧ (lookupD (runTrace w sid (handle_join_room_trace (some rOld) (some rNew))).conns sid).map
            (fun c' => c'.wire)
          = some (c.wire ++ [⟨"join_room_success", rNew⟩])
      ∧ (∀ sid', sid' ≠ sid →
          lookupD (runTrace w sid (handle_join_room_trace (some rOld) (some rNew))).conns sid'
            = lookupD w.conns sid') := by
  intro w sid c rOld rNew hc hne hnro hkeys hndm hwf
  have hor : rOld ≠ rNew := fun h => hnro h.symm
  have htr : handle_join_room_trace (some rOld) (some rNew)
      = [.opSetRoom (some rNew), .opJoin rNew, .opLeave rOld,
         .opSendDirect ⟨"join_room_success", rNew⟩] := by
    simp [handle_join_room_trace, hne, hor]
  have hcu : lookupD (dictUpdate (fun c' => { c' with roomId := some rNew }) w.conns sid) sid
      = some { c with roomId := some rNew } := by
    rw [lookupD_dictUpdate_self, hc]
    rfl
  have hfinal : runTrace w sid (handle_join_room_trace (some rOld) (some rNew))
      = { w with
          factory := factory_leave_room (factory_join_room w.factory c.userId rNew) c.userId rOld,
          conns := dictUpdate (fun c' => { c' with wire := c'.wire ++ [⟨"join_room_success", rNew⟩] })
                    (dictUpdate (fun c' => { c' with roomId := some rNew }) w.conns sid) sid } := by
    rw [htr]
    show applyHOp (applyHOp (applyHOp (applyHOp w sid (.opSetRoom (some rNew))) sid (.opJoin rNew))
        sid (.opLeave rOld)) sid (.opSendDirect ⟨"join_room_success", rNew⟩) = _
    simp only [applyHOp, hcu]
  refine ⟨htr, ?_, ?_, ?_⟩
  · intro r
    rw [hfinal]
    show c.userId ∈ membersOf
        (factory_leave_room (factory_join_room w.factory c.userId rNew) c.userId rOld) r ↔ r = rNew
    by_cases hr : r = rNew
    · subst hr
      simp only [membersOf]
      rw [rooms_leave_ne _ _ _ _ hnro, rooms_join_self]
      simp [mem_addMember_self]
    · by_cases hro : r = rOld
      · subst hro
        have hmol : membersOf (factory_join_room w.factory c.userId rNew) r
            = membersOf w.factory r := by
          simp only [membersOf]
          rw [rooms_join_ne _ _ _ _ hor]
        exact iff_of_false
          (not_mem_after_leave _ _ _ (keys_nodup_join _ _ _ hkeys) (by rw [hmol]; exact hndm)) hr
      · have h1 : lookupD (factory_leave_room (factory_join_room w.factory c.userId rNew)
            c.userId rOld).rooms r = lookupD w.factory.rooms r := by
          rw [rooms_leave_ne _ _ _ _ hro, rooms_join_ne _ _ _ _ hr]
        refine iff_of_false ?_ hr
        simp only [membersOf]
        rw [h1]
        intro hmem2
        exact hro ((hwf r).mp hmem2)
  · rw [hfinal]
    show (lookupD (dictUpdate _ (dictUpdate _ w.conns sid) sid) sid).map _ = _
    rw [lookupD_dictUpdate_self, lookupD_dictUpdate_self, hc]
    rfl
  · intro sid' hne'
    rw [hfinal]
    show lookupD (dictUpdate _ (dictUpdate _ w.conns sid) sid) sid' = _
    rw [lookupD_dictUpdate_ne _ _ _ _ hne', lookupD_dictUpdate_ne _ _ _ _ hne']

/-- Witness for C8 (amended): session `u1`, alone in room `A`, joins room
`B`. -/
theorem c8_amended_witness :
    handle_join_room_trace (some "A") (some "B")
      = [.opSetRoom (some "B"), .opJoin "B", .opLeave "A",
         .opSendDirect ⟨"join_room_success", "B"⟩]
    ∧ (∀ r, (⟨"u1", some "A", initSQ, []⟩ : Conn).userId ∈ membersOf
          (runTrace wOneA 1 (handle_join_room_trace (some "A") (some "B"))).factory r ↔ r = "B")
    ∧ (lookupD (runTrace wOneA 1 (handle_join_room_trace (some "A") (some "B"))).conns 1).map
          (fun c' => c'.wire)
        = some ((⟨"u1", some "A", initSQ, []⟩ : Conn).wire ++ [⟨"join_room_success", "B"⟩])
    ∧ (∀ sid', sid' ≠ 1 →
        lookupD (runTrace wOneA 1 (handle_join_room_trace (some "A") (some "B"))).conns sid'
          = lookupD wOneA.conns sid') :=
  c8_amended wOneA 1 ⟨"u1", some "A", initSQ, []⟩ "A" "B" (by decide) (by decide) (by decide)
    (by decide) (by decide)
    (by
      intro r
      by_cases hr : r = "A"
      · subst hr
        simp [membersOf, wOneA, lookupD]
      · simp [membersOf, wOneA, lookupD, hr])

end WsModel


